import Mathlib

/-!
Shallow embedding of the todo-cli repository (Go) in Lean 4.

The embedding covers the parts of the program the verified claims are
about:

* string helpers mirroring the Go standard library functions the code
  uses (`strings.TrimSpace`, `strings.Split`, `strings.Join`,
  `strings.ToLower`, `fmt.Sscanf` with a single `%d` verb);
* the data model of `internal/types/types.go` (`Status`, `Priority`,
  `Todo`, `Context`, `Meta`, `Config`, `TodoFile`) together with its
  small state transitions (`MarkDone`, `MarkOpen`, `Toggle`, `SetPaths`,
  `SetGitContext`, `NewTodo`);
* the pure storage helpers of `internal/storage/storage.go`
  (`FindTodoByIndex`, `FindTodoByIDOrIndex`, `DeleteTodo`) and a model
  of `LoadTodos` over an abstract JSON value, mirroring the semantics of
  Go's `encoding/json` for the two target types;
* `normalizePaths` from `internal/cmd/path_helpers.go`;
* `applyDoctorFixes` from `internal/cmd/doctor.go`, with filesystem
  presence abstracted into a boolean predicate on paths;
* the keypress transition function of the interactive list session
  (`runInteractiveList` in `internal/cmd/list.go`);
* the command handlers `runAdd` (`internal/cmd/add.go`) and `runEdit`
  (`internal/cmd/root.go` edit command), with the effectful inputs
  (loaded todos, generated id, git probe results, clock) passed in as
  explicit values.

Machine integers are modelled as `Int`/`Nat` (no value in the embedded
code approaches overflow), byte strings as Lean `String` at the
character level (all data the claims touch is ASCII, where Go's byte
indexing and Lean's character indexing agree), and `time.Time` values as
opaque strings that are only ever created and compared for equality.
-/

/-! ## Go string helpers -/

/-- Whitespace test of Go's `unicode.IsSpace` restricted to the Latin-1
range (the only characters appearing in the embedded data); the
higher-plane Unicode space classes are not modelled. -/
def goIsSpace (c : Char) : Bool :=
  c = ' ' ∨ c = '\t' ∨ c = '\n' ∨ c = '\x0b' ∨ c = '\x0c' ∨ c = '\r' ∨
  c = '\x85' ∨ c = '\xa0'

/-- Go `strings.TrimSpace`: drop whitespace from both ends. -/
def trimSpace (s : String) : String :=
  String.mk (((s.toList.dropWhile goIsSpace).reverse.dropWhile goIsSpace).reverse)

/-- Go `strings.Split (v, char)` on a character-list, used with the comma
separator by `normalizePaths`.  Splitting an empty string yields one
empty piece, as in Go. -/
def splitCharList (sep : Char) : List Char → List (List Char)
  | [] => [[]]
  | c :: rest =>
    match splitCharList sep rest with
    | [] => [[]]
    | piece :: pieces =>
      if c = sep then [] :: piece :: pieces else (c :: piece) :: pieces

/-- Go `strings.Split (s, ",")`. -/
def splitComma (s : String) : List String :=
  (splitCharList ',' s.toList).map String.mk

/-- Go `strings.Join (parts, sep)` with a single-space separator. -/
def joinSpace : List String → String
  | [] => ""
  | [s] => s
  | s :: rest => s ++ " " ++ joinSpace rest

/-- ASCII case folding of Go's `strings.ToLower` (every status and
priority token the program compares is ASCII). -/
def goToLower (s : String) : String :=
  String.mk (s.toList.map fun c =>
    if 'A' ≤ c ∧ c ≤ 'Z' then Char.ofNat (c.toNat + 32) else c)

/-- Model of Go's byte slice `s[:n]` at the character level (the IDs the
program slices are ASCII hex strings, where the two agree). -/
def strTake (s : String) (n : Nat) : String :=
  String.mk (s.toList.take n)

/-- Go `fmt.Sscanf (s, a, i)` with a lone decimal-integer verb: skip
leading whitespace, read an optional sign and a non-empty run of
decimal digits, and ignore any trailing input (`Sscanf` succeeds as
soon as the one verb is filled).  Returns `none` exactly when Go
reports a scan error (no digits).  The `int64` overflow error is not
modelled; no token in the program's domain approaches it. -/
def goSscanfInt (s : String) : Option Int :=
  let cs := s.toList.dropWhile goIsSpace
  let signAndRest : Bool × List Char :=
    match cs with
    | '-' :: rest => (true, rest)
    | '+' :: rest => (false, rest)
    | other => (false, other)
  let digits := signAndRest.2.takeWhile Char.isDigit
  if digits.isEmpty then none
  else
    let mag : Nat := digits.foldl (fun a c => a * 10 + (c.toNat - '0'.toNat)) 0
    some (if signAndRest.1 then -(mag : Int) else (mag : Int))

/-! ## Data model (`internal/types/types.go`) -/

/-- Go `type Status string`. -/
abbrev Status := String

def StatusOpen : Status := "open"

def StatusDone : Status := "done"

def StatusBlocked : Status := "blocked"

def StatusWaiting : Status := "waiting"

def StatusTechDebt : Status := "tech-debt"

/-- Go `ValidStatuses`. -/
def ValidStatuses : List Status :=
  [StatusOpen, StatusDone, StatusBlocked, StatusWaiting, StatusTechDebt]

/-- Go `Status.IsValid`: linear scan over `ValidStatuses`. -/
def Status.IsValid (s : Status) : Bool :=
  ValidStatuses.any fun valid => s = valid

/-- Go `type Priority string`. -/
abbrev Priority := String

def PriorityLow : Priority := "low"

def PriorityMedium : Priority := "medium"

def PriorityHigh : Priority := "high"

/-- Go `Priority.IsValid`. -/
def Priority.IsValid (p : Priority) : Bool :=
  p = PriorityLow ∨ p = PriorityMedium ∨ p = PriorityHigh

/-- `time.Time` values are opaque in the embedded code: they are only
created (from the clock passed in as a parameter) and stored, never
compared or inspected. -/
abbrev Time := String

/-- Go struct `Context`. -/
structure Context where
  Paths : List String
  Branch : String
  Commit : String
deriving DecidableEq, Repr

/-- Go struct `Meta`. -/
structure Meta where
  Source : String
  AIHint : String
deriving DecidableEq, Repr

/-- Go struct `Todo`. -/
structure Todo where
  ID : String
  Text : String
  Status : Status
  Priority : Priority
  CreatedAt : Time
  UpdatedAt : Time
  Context : Context
  Meta : Meta
deriving DecidableEq, Repr

/-- Zero value of `Context` (Go's implicit zero struct). -/
def zeroContext : Context := ⟨[], "", ""⟩

/-- Zero value of `Meta`. -/
def zeroMeta : Meta := ⟨"", ""⟩

/-- Zero value of `Todo`. -/
def zeroTodo : Todo := ⟨"", "", "", "", "", "", zeroContext, zeroMeta⟩

/-- Go `NewTodo`; `time.Now()` is the explicit `now` parameter. -/
def NewTodo (id text : String) (now : Time) : Todo :=
  { ID := id
    Text := text
    Status := StatusOpen
    Priority := PriorityMedium
    CreatedAt := now
    UpdatedAt := now
    Context := zeroContext
    Meta := { Source := "cli", AIHint := "" } }

/-- Go `(*Todo).SetPaths`. -/
def Todo.SetPaths (t : Todo) (paths : List String) (now : Time) : Todo :=
  { t with Context := { t.Context with Paths := paths }, UpdatedAt := now }

/-- Go `(*Todo).SetGitContext`. -/
def Todo.SetGitContext (t : Todo) (branch commit : String) (now : Time) : Todo :=
  { t with Context := { t.Context with Branch := branch, Commit := commit }
           UpdatedAt := now }

/-- Go `(*Todo).MarkDone`. -/
def Todo.MarkDone (t : Todo) (now : Time) : Todo :=
  { t with Status := StatusDone, UpdatedAt := now }

/-- Go `(*Todo).MarkOpen`. -/
def Todo.MarkOpen (t : Todo) (now : Time) : Todo :=
  { t with Status := StatusOpen, UpdatedAt := now }

/-- Go `(*Todo).Toggle`. -/
def Todo.Toggle (t : Todo) (now : Time) : Todo :=
  if t.Status = StatusDone then t.MarkOpen now else t.MarkDone now

/-- Go struct `Config`. -/
structure Config where
  Version : Int
  DefaultBranch : String
  AutoGit : Bool
deriving DecidableEq, Repr

/-- Go `DefaultConfig`. -/
def DefaultConfig : Config := { Version := 1, DefaultBranch := "", AutoGit := true }

/-- Go struct `TodoFile` (the versioned on-disk envelope). -/
structure TodoFile where
  Version : Int
  Todos : List Todo
deriving DecidableEq, Repr

/-! ## Storage helpers (`internal/storage/storage.go`) -/

/-- Go `FindTodoByIndex`: resolve a 1-based index; mirrors the bound
checks `idx >= 0 && idx < len(todos)` on the Go `int`. -/
def FindTodoByIndex (todos : List Todo) (index : Int) : Option (Todo × Nat) :=
  let idx : Int := index - 1
  if 0 ≤ idx ∧ idx < todos.length then
    match todos[idx.toNat]? with
    | some t => some (t, idx.toNat)
    | none => none
  else none

/-- The single scan of `FindTodoByIDOrIndex` over the collection,
carrying the running position: per element the code tests
`todos[i].ID == idOrIndex || (len(idOrIndex) >= 4 &&
len(todos[i].ID) >= len(idOrIndex) &&
todos[i].ID[:len(idOrIndex)] == idOrIndex)`. -/
def findMatchAux (tok : String) : List Todo → Nat → Option (Todo × Nat)
  | [], _ => none
  | t :: rest, i =>
    if t.ID = tok ∨ (4 ≤ tok.length ∧ tok.length ≤ t.ID.length ∧
        strTake t.ID tok.length = tok) then
      some (t, i)
    else findMatchAux tok rest (i + 1)

/-- Go `FindTodoByIDOrIndex`: first try the token as a 1-based index via
`fmt.Sscanf` + `FindTodoByIndex`; when that yields nothing, scan the
collection once for an exact-or-prefix ID match. -/
def FindTodoByIDOrIndex (todos : List Todo) (idOrIndex : String) : Option (Todo × Nat) :=
  let byIndex :=
    match goSscanfInt idOrIndex with
    | some index => FindTodoByIndex todos index
    | none => none
  match byIndex with
  | some r => some r
  | none => findMatchAux idOrIndex todos 0

/-- Go `DeleteTodo`: `append(todos[:index], todos[index+1:]...)` guarded
by `index < 0 || index >= len(todos)`. -/
def DeleteTodo (todos : List Todo) (index : Int) : List Todo :=
  if index < 0 ∨ (todos.length : Int) ≤ index then todos
  else todos.take index.toNat ++ todos.drop (index.toNat + 1)

/-! ## JSON model and `LoadTodos`

`LoadTodos` reads `todos.json` and calls Go's `encoding/json`
`Unmarshal` twice: once into the `TodoFile` envelope and, when that
fails, once into a bare `[]Todo`.  The file contents are modelled as an
abstract JSON value (`none` standing for bytes that are not
syntactically valid JSON, which make both attempts fail alike), and the
two unmarshal calls as decoders that follow `encoding/json` semantics
for the target types: a JSON `null` leaves the target at its zero
value, a missing object key leaves the field at its zero value, unknown
keys are ignored, a duplicated key keeps its last value, and a value of
the wrong shape is an error.  JSON numbers are modelled as integers
(the only numeric field, `version`, is a Go `int`) and `time.Time`
fields accept any JSON string (the RFC 3339 format check is
abstracted; it affects both decode paths identically). -/

/-- Abstract JSON value. -/
inductive Json where
  | null : Json
  | bool (b : Bool) : Json
  | num (n : Int) : Json
  | str (s : String) : Json
  | arr (xs : List Json) : Json
  | obj (fields : List (String × Json)) : Json

/-- Key lookup in a JSON object; a duplicated key keeps its last value,
as `encoding/json` does. -/
def lookupField (fields : List (String × Json)) (key : String) : Option Json :=
  fields.foldl (fun acc kv => if kv.1 = key then some kv.2 else acc) none

/-- Decode a field with the target's zero value when the key is absent. -/
def decodeFieldD (fields : List (String × Json)) (key : String)
    (dec : Json → Option α) (dflt : α) : Option α :=
  match lookupField fields key with
  | none => some dflt
  | some j => dec j

/-- Unmarshal into a Go `string`. -/
def decodeString : Json → Option String
  | .str s => some s
  | .null => some ""
  | _ => none

/-- Unmarshal into a Go `int`. -/
def decodeInt : Json → Option Int
  | .num n => some n
  | .null => some 0
  | _ => none

/-- Unmarshal into a Go `[]string`. -/
def decodeStringList : Json → Option (List String)
  | .arr xs => xs.mapM decodeString
  | .null => some []
  | _ => none

/-- Unmarshal into `types.Context`. -/
def decodeContext : Json → Option Context
  | .obj fields => do
    let paths ← decodeFieldD fields "paths" decodeStringList []
    let branch ← decodeFieldD fields "branch" decodeString ""
    let commit ← decodeFieldD fields "commit" decodeString ""
    pure ⟨paths, branch, commit⟩
  | .null => some zeroContext
  | _ => none

/-- Unmarshal into `types.Meta`. -/
def decodeMeta : Json → Option Meta
  | .obj fields => do
    let source ← decodeFieldD fields "source" decodeString ""
    let aiHint ← decodeFieldD fields "aiHint" decodeString ""
    pure ⟨source, aiHint⟩
  | .null => some zeroMeta
  | _ => none

/-- Unmarshal into `types.Todo` (field keys are the struct's json tags). -/
def decodeTodo : Json → Option Todo
  | .obj fields => do
    let id ← decodeFieldD fields "id" decodeString ""
    let text ← decodeFieldD fields "text" decodeString ""
    let status ← decodeFieldD fields "status" decodeString ""
    let priority ← decodeFieldD fields "priority" decodeString ""
    let createdAt ← decodeFieldD fields "createdAt" decodeString ""
    let updatedAt ← decodeFieldD fields "updatedAt" decodeString ""
    let context ← decodeFieldD fields "context" decodeContext zeroContext
    let meta ← decodeFieldD fields "meta" decodeMeta zeroMeta
    pure ⟨id, text, status, priority, createdAt, updatedAt, context, meta⟩
  | .null => some zeroTodo
  | _ => none

/-- Unmarshal into a Go `[]types.Todo` (the legacy bare-array format). -/
def decodeTodoList : Json → Option (List Todo)
  | .arr xs => xs.mapM decodeTodo
  | .null => some []
  | _ => none

/-- Unmarshal into `types.TodoFile` (the versioned envelope). -/
def decodeTodoFile : Json → Option TodoFile
  | .obj fields => do
    let version ← decodeFieldD fields "version" decodeInt 0
    let todos ← decodeFieldD fields "todos" decodeTodoList []
    pure ⟨version, todos⟩
  | .null => some ⟨0, []⟩
  | _ => none

/-- Outcome of `os.ReadFile` on the todos file: the file is absent, the
read fails for another reason, or it yields bytes (`none` when they are
not syntactically valid JSON). -/
inductive FileRead where
  | missing : FileRead
  | readErr : FileRead
  | content (parsed : Option Json) : FileRead

/-- Errors surfaced by `LoadTodos`. -/
inductive LoadErr where
  | readFailed : LoadErr
  | parseFailed : LoadErr
deriving DecidableEq, Repr

/-- Go `LoadTodos`: a missing file is an empty collection, not an error;
otherwise unmarshal the envelope and, when that fails, fall back to the
legacy bare array before surfacing a parse error. -/
def LoadTodos : FileRead → Except LoadErr (List Todo)
  | .missing => .ok []
  | .readErr => .error .readFailed
  | .content none => .error .parseFailed
  | .content (some j) =>
    match decodeTodoFile j with
    | some todoFile => .ok todoFile.Todos
    | none =>
      match decodeTodoList j with
      | some todos => .ok todos
      | none => .error .parseFailed

/-! ## `normalizePaths` (`internal/cmd/path_helpers.go`) -/

/-- Go `normalizePaths`: expand comma-separated entries, trim
whitespace, drop empties, preserve order. -/
def normalizePaths (raw : List String) : List String :=
  raw.foldl (fun paths v =>
    (splitComma v).foldl (fun paths p =>
      let p := trimSpace p
      if p = "" then paths else paths ++ [p]) paths) []

/-! ## `applyDoctorFixes` (`internal/cmd/doctor.go`)

The filesystem probe `os.Stat(filepath.Join(projectRoot, path))` is
abstracted into the predicate `fileExists` on the stored relative path
(the project root is fixed for a run). -/

/-- Go struct `doctorFixReport`. -/
structure doctorFixReport where
  removedOrphanedPaths : Int
  removedEmpty : Int
  removedDuplicates : Int
deriving DecidableEq, Repr

/-- Go `doctorFixReport.hasChanges`. -/
def doctorFixReport.hasChanges (r : doctorFixReport) : Bool :=
  r.removedOrphanedPaths > 0 ∨ r.removedEmpty > 0 ∨ r.removedDuplicates > 0

/-- Body of the `applyDoctorFixes` loop for one todo; `seenText` models
the `map[string]bool` of texts already kept. -/
def doctorFixStep (fileExists : String → Bool) (now : Time)
    (acc : List Todo × doctorFixReport × List String) (todo : Todo) :
    List Todo × doctorFixReport × List String :=
  let cleaned := acc.1
  let fixes := acc.2.1
  let seenText := acc.2.2
  let text := trimSpace todo.Text
  if text = "" then
    (cleaned, { fixes with removedEmpty := fixes.removedEmpty + 1 }, seenText)
  else if seenText.contains text then
    (cleaned, { fixes with removedDuplicates := fixes.removedDuplicates + 1 }, seenText)
  else
    let seenText := seenText ++ [text]
    if todo.Context.Paths.length > 0 then
      let validPaths := todo.Context.Paths.filter fileExists
      let removed := todo.Context.Paths.length - validPaths.length
      let fixes := { fixes with
        removedOrphanedPaths := fixes.removedOrphanedPaths + removed }
      let todo :=
        if validPaths.length ≠ todo.Context.Paths.length then
          { todo with Context := { todo.Context with Paths := validPaths }
                      UpdatedAt := now }
        else todo
      (cleaned ++ [todo], fixes, seenText)
    else (cleaned ++ [todo], fixes, seenText)

/-- Go `applyDoctorFixes`: drop empty-text todos, drop duplicate-text
todos (first occurrence kept), and strip path entries whose target no
longer exists, counting each kind of fix. -/
def applyDoctorFixes (todos : List Todo) (fileExists : String → Bool)
    (now : Time) : List Todo × doctorFixReport :=
  let r := todos.foldl (doctorFixStep fileExists now) ([], ⟨0, 0, 0⟩, [])
  (r.1, r.2.1)

/-! ## Interactive list session (`internal/cmd/list.go`)

`runInteractiveList` is a loop: render, read one key, update
`(todos, selectedIndex, showDeleteConfirm)`, repeat until a branch
returns.  The loop body is embedded as a transition function on that
state plus a flag for the help overlay (in the code, the help branch
blocks on one further `ReadKey` whose value is discarded; the flag
models that swallowed keypress).  The result pairs the next state
(`none` when the session returns) with the collection passed to
`SaveTodos` when the branch persists (`none` when it does not save). -/

/-- Mutable state of `runInteractiveList`. -/
structure IState where
  todos : List Todo
  selectedIndex : Int
  showDeleteConfirm : Bool
  inHelp : Bool
deriving DecidableEq, Repr

/-- Session entry: `selectedIndex := 0`, `showDeleteConfirm := false`. -/
def initState (todos : List Todo) : IState :=
  ⟨todos, 0, false, false⟩

/-- In-place update `todos[idx].Field = v` of the Go code, as a list
update at a 0-based position. -/
def modifyAt (f : Todo → Todo) : List Todo → Nat → List Todo
  | [], _ => []
  | t :: rest, 0 => f t :: rest
  | t :: rest, n + 1 => t :: modifyAt f rest n

/-- One iteration of the `runInteractiveList` loop on the key read from
the terminal. -/
def interactiveStep (st : IState) (key : String) (now : Time) :
    Option IState × Option (List Todo) :=
  if st.inHelp then
    (some { st with inHelp := false }, none)
  else if st.showDeleteConfirm then
    if key = "y" ∨ key = "Y" then
      if 0 ≤ st.selectedIndex ∧ st.selectedIndex < st.todos.length then
        let todos := DeleteTodo st.todos st.selectedIndex
        let idx :=
          if (todos.length : Int) ≤ st.selectedIndex ∧ 0 < st.selectedIndex then
            st.selectedIndex - 1
          else st.selectedIndex
        if todos.length = 0 then (none, some todos)
        else (some ⟨todos, idx, false, false⟩, some todos)
      else (some { st with showDeleteConfirm := false }, none)
    else if key = "n" ∨ key = "N" ∨ key = "ESC" ∨ key = "q" then
      (some { st with showDeleteConfirm := false }, none)
    else (some st, none)
  else if key = "q" ∨ key = "Q" ∨ key = "ESC" then
    (none, none)
  else if key = "DOWN" ∨ key = "j" then
    (some { st with selectedIndex :=
      if st.selectedIndex < (st.todos.length : Int) - 1 then st.selectedIndex + 1
      else st.selectedIndex }, none)
  else if key = "UP" ∨ key = "k" then
    (some { st with selectedIndex :=
      if 0 < st.selectedIndex then st.selectedIndex - 1
      else st.selectedIndex }, none)
  else if key = "SPACE" ∨ key = "ENTER" then
    if 0 ≤ st.selectedIndex ∧ st.selectedIndex < st.todos.length then
      let todos := modifyAt (Todo.Toggle · now) st.todos st.selectedIndex.toNat
      (some { st with todos := todos }, some todos)
    else (some st, none)
  else if key = "d" ∨ key = "D" ∨ key = "x" ∨ key = "X" then
    if 0 ≤ st.selectedIndex ∧ st.selectedIndex < st.todos.length then
      (some { st with showDeleteConfirm := true }, none)
    else (some st, none)
  else if key = "g" then
    (some { st with selectedIndex := 0 }, none)
  else if key = "G" then
    (some { st with selectedIndex := (st.todos.length : Int) - 1 }, none)
  else if key = "?" ∨ key = "h" ∨ key = "H" then
    (some { st with inHelp := true }, none)
  else (some st, none)

/-! ## `runAdd` (`internal/cmd/add.go`)

The handler's effectful inputs are passed explicitly: the positional
arguments and flag values, the loaded config and collection, the
generated id, the git probe results, and the clock.  The result is the
collection handed to `SaveTodos` on success. -/

/-- Command-level errors of the embedded handlers, mirroring the Go
error values. -/
inductive CmdErr where
  | emptyText : CmdErr
  | invalidPriority (value : String) : CmdErr
  | invalidStatus (value : String) : CmdErr
  | notFound (token : String) : CmdErr
  | noUpdates : CmdErr
deriving DecidableEq, Repr

/-- Flag and argument state of one `todo add` invocation;
`pathFlagUsed` is `cmd.Flags().Changed ("path")`. -/
structure AddArgs where
  args : List String
  pathFlagUsed : Bool
  addPaths : List String
  addPriority : String
  addNoGit : Bool
deriving DecidableEq, Repr

/-- Environment of one `todo add` invocation: loaded config and todos,
generated id, git probe outcome (`gitOk` is `err == nil` of
`GetGitContext`), and the clock. -/
structure AddEnv where
  config : Config
  todos : List Todo
  id : String
  isRepo : Bool
  gitBranch : String
  gitCommit : String
  gitOk : Bool
  now : Time
deriving DecidableEq, Repr

/-- Go `runAdd`. -/
def runAdd (a : AddArgs) (e : AddEnv) : Except CmdErr (List Todo) :=
  let text := joinSpace a.args
  if trimSpace text = "" then .error .emptyText
  else
    let textAndPaths :=
      if (a.pathFlagUsed ∨ 0 < a.addPaths.length) ∧ 1 < a.args.length then
        (trimSpace (a.args.headD ""), a.addPaths ++ a.args.drop 1)
      else (text, a.addPaths)
    let todo := NewTodo e.id textAndPaths.1 e.now
    if ¬(a.addPriority = PriorityLow ∨ a.addPriority = PriorityMedium ∨
        a.addPriority = PriorityHigh) then
      .error (.invalidPriority a.addPriority)
    else
      let todo := { todo with Priority := a.addPriority }
      let normalizedPaths := normalizePaths textAndPaths.2
      let todo :=
        if 0 < normalizedPaths.length then todo.SetPaths normalizedPaths e.now
        else todo
      let todo :=
        if ¬a.addNoGit ∧ e.config.AutoGit ∧ e.isRepo then
          if e.gitOk ∧ e.gitBranch ≠ "" then
            todo.SetGitContext e.gitBranch e.gitCommit e.now
          else todo
        else if ¬a.addNoGit ∧ e.config.AutoGit ∧ e.config.DefaultBranch ≠ "" then
          todo.SetGitContext e.config.DefaultBranch "" e.now
        else todo
      .ok (e.todos ++ [todo])

/-! ## `runEdit` (edit command in `internal/cmd/root.go`) -/

/-- Flag and argument state of one `todo edit` invocation; the
`…Changed` fields are `cmd.Flags().Changed (…)`. -/
structure EditArgs where
  token : String
  textChanged : Bool
  editText : String
  pathChanged : Bool
  editPaths : List String
  editClearPaths : Bool
  priorityChanged : Bool
  editPriority : String
  statusChanged : Bool
  editStatus : String
deriving DecidableEq, Repr

/-- Go `runEdit`: resolve the target, apply each supplied flag in the
code's order (text, priority, status, paths), reject when nothing was
supplied, refresh `UpdatedAt`, and return the collection handed to
`SaveTodos`. -/
def runEdit (a : EditArgs) (todos : List Todo) (now : Time) :
    Except CmdErr (List Todo) :=
  match FindTodoByIDOrIndex todos a.token with
  | none => .error (.notFound a.token)
  | some (_, idx) =>
    let afterText : Except CmdErr (List Todo × Bool) :=
      if a.textChanged then
        let text := trimSpace a.editText
        if text = "" then .error .emptyText
        else .ok (modifyAt (fun t => { t with Text := text }) todos idx, true)
      else .ok (todos, false)
    match afterText with
    | .error err => .error err
    | .ok (todos, updated) =>
      let afterPriority : Except CmdErr (List Todo × Bool) :=
        if a.priorityChanged then
          let p : Priority := goToLower a.editPriority
          if ¬p.IsValid then .error (.invalidPriority a.editPriority)
          else .ok (modifyAt (fun t => { t with Priority := p }) todos idx, true)
        else .ok (todos, updated)
      match afterPriority with
      | .error err => .error err
      | .ok (todos, updated) =>
        let afterStatus : Except CmdErr (List Todo × Bool) :=
          if a.statusChanged then
            let status : Status := goToLower a.editStatus
            if ¬status.IsValid then .error (.invalidStatus a.editStatus)
            else .ok (modifyAt (fun t => { t with Status := status }) todos idx, true)
          else .ok (todos, updated)
        match afterStatus with
        | .error err => .error err
        | .ok (todos, updated) =>
          let withPaths : List Todo × Bool :=
            if a.editClearPaths then
              (modifyAt (fun t =>
                { t with Context := { t.Context with Paths := [] } }) todos idx, true)
            else if a.pathChanged then
              (modifyAt (fun t =>
                { t with Context := { t.Context with Paths := a.editPaths } }) todos idx,
               true)
            else (todos, updated)
          if ¬withPaths.2 then .error .noUpdates
          else .ok (modifyAt (fun t => { t with UpdatedAt := now }) withPaths.1 idx)

/-! ## Helper lemmas -/

/-- `modifyAt` preserves the length of the collection. -/
theorem modifyAt_length (f : Todo → Todo) (l : List Todo) (n : Nat) :
    (modifyAt f l n).length = l.length := by
  induction l generalizing n with
  | nil => rfl
  | cons t rest ih =>
    cases n with
    | zero => rfl
    | succ m => simpa [modifyAt] using ih m

/-- Two successive in-place updates at the same position compose. -/
theorem modifyAt_modifyAt (f g : Todo → Todo) (l : List Todo) (n : Nat) :
    modifyAt g (modifyAt f l n) n = modifyAt (fun t => g (f t)) l n := by
  induction l generalizing n with
  | nil => rfl
  | cons t rest ih =>
    cases n with
    | zero => rfl
    | succ m => simpa [modifyAt] using ih m

/-- Length of an in-range `DeleteTodo`. -/
theorem deleteTodo_length (todos : List Todo) (i : Int) (h0 : 0 ≤ i)
    (hlt : i < (todos.length : Int)) :
    (DeleteTodo todos i).length = todos.length - 1 := by
  unfold DeleteTodo
  rw [if_neg (by omega)]
  simp only [List.length_append, List.length_take, List.length_drop]
  omega

/-! ## Claim C5: `DeleteTodo` safety -/

/-- C5: for every todo slice and every index, `DeleteTodo` with an
out-of-range index (negative or at least the length) returns the input
unchanged, and with an in-range index removes exactly that one element:
the result is one shorter, elements before the index are unchanged, and
every element from the index on is the input's successor element, so
the relative order of the remaining todos is preserved.  The function
is total, so no panic is possible. -/
theorem deleteTodo_out_of_range_noop_in_range_removes_one
    (todos : List Todo) (i : Int) :
    ((i < 0 ∨ (todos.length : Int) ≤ i) → DeleteTodo todos i = todos) ∧
    (0 ≤ i → i < (todos.length : Int) →
      (DeleteTodo todos i).length = todos.length - 1 ∧
      (∀ j : Nat, (j : Int) < i → (DeleteTodo todos i)[j]? = todos[j]?) ∧
      (∀ j : Nat, i ≤ (j : Int) → (DeleteTodo todos i)[j]? = todos[j + 1]?)) := by
  constructor
  · intro h
    unfold DeleteTodo
    rw [if_pos h]
  · intro h0 hlt
    refine ⟨deleteTodo_length todos i h0 hlt, ?_, ?_⟩
    · intro j hj
      unfold DeleteTodo
      rw [if_neg (by omega)]
      rw [List.getElem?_append]
      rw [if_pos (by simp [List.length_take]; omega)]
      rw [List.getElem?_take, if_pos (by omega)]
    · intro j hj
      unfold DeleteTodo
      rw [if_neg (by omega)]
      rw [List.getElem?_append_right (by simp [List.length_take]; omega)]
      rw [List.getElem?_drop]
      have harith : i.toNat + 1 + (j - (todos.take i.toNat).length) = j + 1 := by
        simp [List.length_take]
        omega
      rw [harith]

/-- Witness for C5 at a concrete collection: index 5 is out of range for
a two-element collection and index 1 removes the middle element of a
three-element collection. -/
theorem deleteTodo_safety_witness :
    DeleteTodo [zeroTodo, zeroTodo] 5 = [zeroTodo, zeroTodo] ∧
    (DeleteTodo [zeroTodo, { zeroTodo with ID := "b" }, zeroTodo] 1).length = 2 ∧
    (DeleteTodo [zeroTodo, { zeroTodo with ID := "b" }, zeroTodo] 1)[1]? =
      [zeroTodo, { zeroTodo with ID := "b" }, zeroTodo][2]? := by
  refine ⟨?_, ?_, ?_⟩
  · exact (deleteTodo_out_of_range_noop_in_range_removes_one [zeroTodo, zeroTodo] 5).1
      (by right; decide)
  · exact ((deleteTodo_out_of_range_noop_in_range_removes_one _ 1).2
      (by decide) (by decide)).1
  · exact ((deleteTodo_out_of_range_noop_in_range_removes_one _ 1).2
      (by decide) (by decide)).2.2 1 (by decide)

/-! ## Claim C6: `Toggle` moves between done and open only -/

/-- C6: `Toggle` maps a done todo to open and every other status
(including blocked, waiting and tech-debt) to done, so its result is
always one of open or done — it never cycles through the remaining
statuses — and every call refreshes the `UpdatedAt` timestamp to the
current clock value. -/
theorem toggle_done_open_only_and_refreshes
    (t : Todo) (now : Time) :
    ((t.Toggle now).Status = StatusOpen ∨ (t.Toggle now).Status = StatusDone) ∧
    (t.Status = StatusDone → (t.Toggle now).Status = StatusOpen) ∧
    (t.Status ≠ StatusDone → (t.Toggle now).Status = StatusDone) ∧
    (t.Toggle now).UpdatedAt = now := by
  unfold Todo.Toggle Todo.MarkOpen Todo.MarkDone
  by_cases h : t.Status = StatusDone <;> simp [h]

/-- Witness for C6 at concrete todos: toggling a done todo yields open,
toggling a blocked todo yields done (not waiting), and both refresh the
timestamp. -/
theorem toggle_witness :
    (({ zeroTodo with Status := StatusDone } : Todo).Toggle "t1").Status = StatusOpen ∧
    (({ zeroTodo with Status := StatusBlocked } : Todo).Toggle "t1").Status = StatusDone ∧
    (({ zeroTodo with Status := StatusBlocked } : Todo).Toggle "t1").UpdatedAt = "t1" := by
  refine ⟨?_, ?_, ?_⟩
  · exact (toggle_done_open_only_and_refreshes
      { zeroTodo with Status := StatusDone } "t1").2.1 (by decide)
  · exact (toggle_done_open_only_and_refreshes
      { zeroTodo with Status := StatusBlocked } "t1").2.2.1 (by decide)
  · exact (toggle_done_open_only_and_refreshes
      { zeroTodo with Status := StatusBlocked } "t1").2.2.2

/-! ## Claim C8: `normalizePaths` -/

/-- `splitCharList` always yields at least one piece. -/
theorem splitCharList_ne_nil (sep : Char) (cs : List Char) :
    splitCharList sep cs ≠ [] := by
  cases cs with
  | nil => simp [splitCharList]
  | cons c rest =>
    unfold splitCharList
    cases h : splitCharList sep rest with
    | nil => simp
    | cons piece pieces =>
      by_cases hc : c = sep <;> simp [hc]

/-- Every character of a piece produced by `splitCharList` comes from
the input and is not the separator. -/
theorem mem_splitCharList (sep : Char) :
    ∀ (cs piece : List Char), piece ∈ splitCharList sep cs →
      ∀ c ∈ piece, c ∈ cs ∧ c ≠ sep := by
  intro cs
  induction cs with
  | nil =>
    intro piece hp c hc
    simp [splitCharList] at hp
    subst hp
    simp at hc
  | cons d rest ih =>
    intro piece hp c hc
    unfold splitCharList at hp
    cases h : splitCharList sep rest with
    | nil => exact absurd h (splitCharList_ne_nil sep rest)
    | cons piece0 pieces =>
      rw [h] at hp
      by_cases hd : d = sep
      · simp only [hd, if_true, eq_self_iff_true, List.mem_cons] at hp
        rcases hp with hpe | hpe | hpr
        · subst hpe; simp at hc
        · have := ih piece (h ▸ (hpe ▸ List.mem_cons_self piece0 pieces)) c hc
          exact ⟨List.mem_cons_of_mem d this.1, this.2⟩
        · have := ih piece (h ▸ List.mem_cons_of_mem piece0 hpr) c hc
          exact ⟨List.mem_cons_of_mem d this.1, this.2⟩
      · simp only [hd, if_false, List.mem_cons] at hp
        rcases hp with hpe | hpr
        · subst hpe
          rcases List.mem_cons.mp hc with hce | hcr
          · simp [hce, hd]
          · have := ih piece0 (h ▸ List.mem_cons_self piece0 pieces) c hcr
            exact ⟨List.mem_cons_of_mem d this.1, this.2⟩
        · have := ih piece (h ▸ List.mem_cons_of_mem piece0 hpr) c hc
          exact ⟨List.mem_cons_of_mem d this.1, this.2⟩

/-- Trimming a string of only whitespace yields the empty string. -/
theorem trimSpace_all_space (cs : List Char) (h : ∀ c ∈ cs, goIsSpace c) :
    trimSpace (String.mk cs) = "" := by
  unfold trimSpace
  have hl : (String.mk cs).toList = cs := rfl
  rw [hl, List.dropWhile_eq_nil_iff.mpr h]
  rfl

/-- The inner loop of `normalizePaths` appends the trimmed non-empty
pieces to the running accumulator, in order. -/
theorem normalizePaths_inner (ps : List String) (acc : List String) :
    ps.foldl (fun paths p =>
        let p := trimSpace p
        if p = "" then paths else paths ++ [p]) acc =
      acc ++ (ps.map trimSpace).filter (fun p => ¬(p = "")) := by
  induction ps generalizing acc with
  | nil => simp
  | cons p ps ih =>
    rw [List.foldl_cons, ih]
    by_cases hp : trimSpace p = "" <;> simp [hp, List.filter_cons]

/-- The whole of `normalizePaths` is splitting on commas, trimming,
dropping empties, preserving order. -/
theorem normalizePaths_flatMap (raw : List String) :
    normalizePaths raw =
      raw.flatMap fun v =>
        ((splitComma v).map trimSpace).filter (fun p => ¬(p = "")) := by
  unfold normalizePaths
  suffices h : ∀ acc : List String,
      raw.foldl (fun paths v =>
        (splitComma v).foldl (fun paths p =>
          let p := trimSpace p
          if p = "" then paths else paths ++ [p]) paths) acc =
      acc ++ raw.flatMap (fun v =>
        ((splitComma v).map trimSpace).filter (fun p => ¬(p = ""))) by
    simpa using h []
  induction raw with
  | nil => simp
  | cons v raw ih =>
    intro acc
    rw [List.foldl_cons, normalizePaths_inner, ih, List.flatMap_cons,
      List.append_assoc]

/-- C8: the two stated inputs both normalize to
`["src/pkg", "internal/api", "docs"]`; an input whose entries contain
only commas and whitespace normalizes to the empty result; and in
general `normalizePaths` splits each entry on commas, trims each piece,
drops the empty pieces and preserves their order. -/
theorem normalizePaths_equivalence :
    normalizePaths ["src/pkg,internal/api", "docs"] =
      ["src/pkg", "internal/api", "docs"] ∧
    normalizePaths [" src/pkg ", " internal/api ", "docs"] =
      ["src/pkg", "internal/api", "docs"] ∧
    (∀ raw : List String,
      (∀ v ∈ raw, ∀ c ∈ v.toList, c = ',' ∨ goIsSpace c) →
      normalizePaths raw = []) ∧
    (∀ raw : List String,
      normalizePaths raw =
        raw.flatMap fun v =>
          ((splitComma v).map trimSpace).filter (fun p => ¬(p = ""))) := by
  refine ⟨by decide, by decide, ?_, normalizePaths_flatMap⟩
  intro raw hraw
  rw [normalizePaths_flatMap]
  induction raw with
  | nil => simp
  | cons v raw ih =>
    rw [List.flatMap_cons]
    have hv : ∀ c ∈ v.toList, c = ',' ∨ goIsSpace c :=
      hraw v (List.mem_cons_self v raw)
    have hfilter :
        ((splitComma v).map trimSpace).filter (fun p => ¬(p = "")) = [] := by
      rw [List.filter_eq_nil_iff]
      intro a ha
      rcases List.mem_map.mp ha with ⟨piece, hpiece, htrim⟩
      rcases List.mem_map.mp (by simpa [splitComma] using hpiece) with
        ⟨pcs, hpcs, hmk⟩
      have hspace : ∀ c ∈ pcs, goIsSpace c := by
        intro c hcmem
        have := mem_splitCharList ',' v.toList pcs hpcs c hcmem
        rcases hv c this.1 with hcomma | hsp
        · exact absurd hcomma this.2
        · exact hsp
      have : trimSpace (String.mk pcs) = "" := trimSpace_all_space pcs hspace
      simp [← hmk, ← htrim, this]
    rw [hfilter]
    simp only [List.nil_append]
    exact ih fun v hv => hraw v (List.mem_cons_of_mem _ hv)

/-- Witness for C8's quantified parts at a concrete input: an entry of
commas and blanks normalizes to nothing. -/
theorem normalizePaths_witness :
    normalizePaths [" , ,", "  "] = [] :=
  normalizePaths_equivalence.2.2.1 [" , ,", "  "] (by decide)

/-! ## Claim C2: `LoadTodos` fallback and legacy equivalence -/

/-- C2: a missing todos file loads as the empty collection with no
error; when the contents do not decode as the versioned envelope the
legacy bare-array decode is attempted, and only when both fail does a
parse error surface; and a bare JSON array loads into exactly the same
in-memory todo sequence as the same array wrapped in the versioned
envelope. -/
theorem loadTodos_missing_legacy_equiv :
    (LoadTodos .missing = .ok []) ∧
    (∀ (j : Json) (todos : List Todo),
      decodeTodoFile j = none → decodeTodoList j = some todos →
      LoadTodos (.content (some j)) = .ok todos) ∧
    (∀ j : Json,
      decodeTodoFile j = none → decodeTodoList j = none →
      LoadTodos (.content (some j)) = .error .parseFailed) ∧
    (∀ l : List Json,
      LoadTodos (.content (some (.arr l))) =
        LoadTodos (.content (some (.obj
          [("version", .num 1), ("todos", .arr l)])))) := by
  refine ⟨rfl, ?_, ?_, ?_⟩
  · intro j todos henv hlegacy
    simp [LoadTodos, henv, hlegacy]
  · intro j henv hlegacy
    simp [LoadTodos, henv, hlegacy]
  · intro l
    have hL : LoadTodos (.content (some (.arr l))) =
        match decodeTodoList (.arr l) with
        | some todos => .ok todos
        | none => .error .parseFailed := rfl
    have hR : LoadTodos (.content (some (.obj
          [("version", .num 1), ("todos", .arr l)]))) =
        match (decodeTodoList (.arr l)).bind fun todos =>
            some (⟨1, todos⟩ : TodoFile) with
        | some todoFile => .ok todoFile.Todos
        | none => .error .parseFailed := by
      have hfile : decodeTodoFile (.obj [("version", .num 1), ("todos", .arr l)]) =
          (decodeTodoList (.arr l)).bind fun todos =>
            some (⟨1, todos⟩ : TodoFile) := rfl
      rw [LoadTodos, hfile]
      cases decodeTodoList (.arr l) <;> rfl
    rw [hL, hR]
    cases decodeTodoList (.arr l) <;> rfl

/-- Witness for C2's quantified parts at concrete inputs: the empty
bare array is not an envelope but loads as the empty collection, and a
JSON string decodes as neither shape, surfacing a parse error. -/
theorem loadTodos_witness :
    LoadTodos (.content (some (.arr []))) = .ok [] ∧
    LoadTodos (.content (some (.str "oops"))) = .error .parseFailed :=
  ⟨loadTodos_missing_legacy_equiv.2.1 (.arr []) [] rfl rfl,
   loadTodos_missing_legacy_equiv.2.2.1 (.str "oops") rfl rfl⟩

/-! ## Claim C1: `FindTodoByIDOrIndex`

The claim describes the ID stage as an exact match attempted before a
prefix match.  The code performs one scan testing both per element, so
an earlier todo whose ID merely extends the token shadows a later todo
whose ID equals it; and a token that parses as an integer falls back to
the ID scan when the index is out of range. -/

/-- ID-stage match predicate, stated from the claim's words over one
todo: the token equals the stored ID, or is at least 4 characters long
and a prefix of the stored ID. -/
def matchesToken (tok : String) (t : Todo) : Bool :=
  t.ID = tok ∨ (4 ≤ tok.length ∧ tok.length ≤ t.ID.length ∧
    strTake t.ID tok.length = tok)

/-- Todo with ID `"abcd1234"`, placed first in the counterexample
collection. -/
def cexTodoLong : Todo := { zeroTodo with ID := "abcd1234" }

/-- Todo with ID `"abcd"`, placed second in the counterexample
collection. -/
def cexTodoExact : Todo := { zeroTodo with ID := "abcd" }

/-- Counterexample to C1 as stated: the token `"abcd"` equals the
second todo's stored ID, yet resolution returns the first todo, whose
ID merely has the token as a 4-character prefix — exact ID matching is
not attempted before prefix matching. -/
theorem findTodoByIDOrIndex_counterexample :
    cexTodoExact.ID = "abcd" ∧
    cexTodoLong.ID ≠ "abcd" ∧
    FindTodoByIDOrIndex [cexTodoLong, cexTodoExact] "abcd" =
      some (cexTodoLong, 0) := by
  decide

/-- The single scan agrees with the first-match-in-order search over
the position-enumerated collection. -/
theorem findMatchAux_spec (tok : String) :
    ∀ (todos : List Todo) (n : Nat),
      findMatchAux tok todos n =
        ((todos.enumFrom n).find? fun p => matchesToken tok p.2).map
          fun p => (p.2, p.1) := by
  intro todos
  induction todos with
  | nil => intro n; rfl
  | cons t rest ih =>
    intro n
    rw [List.enumFrom_cons, List.find?_cons]
    by_cases hm : t.ID = tok ∨ (4 ≤ tok.length ∧ tok.length ≤ t.ID.length ∧
        strTake t.ID tok.length = tok)
    · have hb : matchesToken tok t = true := by
        simp [matchesToken, hm]
      rw [hb]
      unfold findMatchAux
      rw [if_pos hm]
      rfl
    · have hb : matchesToken tok t = false := by
        simp only [matchesToken]
        simpa using hm
      rw [hb]
      unfold findMatchAux
      rw [if_neg hm]
      exact ih (n + 1)

/-- When no element matches, the scan finds nothing. -/
theorem findMatchAux_none (tok : String) (todos : List Todo)
    (h : ∀ t ∈ todos, matchesToken tok t = false) :
    ∀ n : Nat, findMatchAux tok todos n = none := by
  induction todos with
  | nil => intro n; rfl
  | cons t rest ih =>
    intro n
    have hm : ¬(t.ID = tok ∨ (4 ≤ tok.length ∧ tok.length ≤ t.ID.length ∧
        strTake t.ID tok.length = tok)) := by
      have := h t (List.mem_cons_self t rest)
      simpa [matchesToken] using this
    unfold findMatchAux
    rw [if_neg hm]
    exact ih (fun t ht => h t (List.mem_cons_of_mem _ ht)) (n + 1)

/-- C1 (amended): a token that `Sscanf` reads as an integer is first
tried as a 1-based display index — token `"1"` on a non-empty
collection resolves to the first element, and a value `i` with
`1 ≤ i ≤ len` resolves to element `i` directly.  Whenever the index
stage yields nothing (the token is non-numeric, or its number is out of
range), one scan in collection order returns the first todo whose ID
matches the token exactly or, for tokens of at least 4 characters, by
prefix — exact and prefix matches are tested together per element, not
in separate passes — and an unrecognized token yields not-found. -/
theorem findTodoByIDOrIndex_amended :
    (∀ (t : Todo) (rest : List Todo),
      FindTodoByIDOrIndex (t :: rest) "1" = some (t, 0)) ∧
    (∀ (todos : List Todo) (tok : String) (i : Int),
      goSscanfInt tok = some i → 1 ≤ i → i ≤ todos.length →
      FindTodoByIDOrIndex todos tok =
        (todos[(i - 1).toNat]?).map fun t => (t, (i - 1).toNat)) ∧
    (∀ (todos : List Todo) (tok : String),
      (∀ i : Int, goSscanfInt tok = some i → FindTodoByIndex todos i = none) →
      FindTodoByIDOrIndex todos tok =
        ((todos.enum.find? fun p => matchesToken tok p.2).map
          fun p => (p.2, p.1))) ∧
    (∀ (todos : List Todo) (tok : String),
      (∀ i : Int, goSscanfInt tok = some i → FindTodoByIndex todos i = none) →
      (∀ t ∈ todos, matchesToken tok t = false) →
      FindTodoByIDOrIndex todos tok = none) := by
  refine ⟨?_, ?_, ?_, ?_⟩
  · intro t rest
    have h1 : goSscanfInt "1" = some 1 := rfl
    have h2 : FindTodoByIndex (t :: rest) 1 = some (t, 0) := by
      simp [FindTodoByIndex]
    simp only [FindTodoByIDOrIndex, h1, h2]
  · intro todos tok i hscan h1 hlen
    have hlt : (i - 1).toNat < todos.length := by omega
    have h2 : FindTodoByIndex todos i =
        (todos[(i - 1).toNat]?).map fun t => (t, (i - 1).toNat) := by
      simp only [FindTodoByIndex]
      rw [if_pos ⟨by omega, by omega⟩, List.getElem?_eq_getElem hlt]
      rfl
    simp only [FindTodoByIDOrIndex, hscan, h2]
    rw [List.getElem?_eq_getElem hlt]
    rfl
  · intro todos tok hidx
    cases hscan : goSscanfInt tok with
    | none =>
      simp only [FindTodoByIDOrIndex, hscan]
      rw [findMatchAux_spec]
      rfl
    | some i =>
      simp only [FindTodoByIDOrIndex, hscan, hidx i hscan]
      rw [findMatchAux_spec]
      rfl
  · intro todos tok hidx hnone
    cases hscan : goSscanfInt tok with
    | none =>
      simp only [FindTodoByIDOrIndex, hscan]
      exact findMatchAux_none tok todos hnone 0
    | some i =>
      simp only [FindTodoByIDOrIndex, hscan, hidx i hscan]
      exact findMatchAux_none tok todos hnone 0

/-- Witness for C1's amended statement at concrete inputs: token `"2"`
resolves the second of two todos by index, and token `"zzzz"` matches
nothing. -/
theorem findTodoByIDOrIndex_amended_witness :
    FindTodoByIDOrIndex [cexTodoLong, cexTodoExact] "2" =
      some (cexTodoExact, 1) ∧
    FindTodoByIDOrIndex [cexTodoLong, cexTodoExact] "zzzz" = none := by
  constructor
  · have h := findTodoByIDOrIndex_amended.2.1 [cexTodoLong, cexTodoExact] "2" 2
      rfl (by decide) (by decide)
    exact h.trans (by decide)
  · exact findTodoByIDOrIndex_amended.2.2.2 [cexTodoLong, cexTodoExact] "zzzz"
      (fun i hi => by simp [show goSscanfInt "zzzz" = none from rfl] at hi)
      (by decide)

/-! ## Claim C7: doctor fix scenario -/

/-- Scenario todo whose only context path points to a missing file. -/
def docTodoOrphan : Todo :=
  { zeroTodo with ID := "1", Text := "orphaned"
                  Context := ⟨["missing.txt"], "", ""⟩ }

/-- Scenario todo kept as the first of two with identical text; it also
points to a file that exists. -/
def docTodoDupKept : Todo :=
  { zeroTodo with ID := "2", Text := "duplicate"
                  Context := ⟨["keep.txt"], "", ""⟩ }

/-- Scenario todo removed as the second of two with identical text. -/
def docTodoDupGone : Todo := { zeroTodo with ID := "3", Text := "duplicate" }

/-- Scenario todo whose text is all whitespace. -/
def docTodoBlank : Todo := { zeroTodo with ID := "4", Text := "   " }

/-- Filesystem of the scenario: only `keep.txt` exists. -/
def docFileSystem : String → Bool := fun path => path = "keep.txt"

/-- C7: on the four-scenario collection — an orphaned path, two todos
with identical text (the first also pointing to a real file), and an
all-whitespace todo — the doctor fixes leave exactly 2 todos, keeping
the orphaned todo with its dead path stripped and the first duplicate
occurrence, and report 1 orphaned-path removal, 1 duplicate removal and
1 empty removal. -/
theorem applyDoctorFixes_scenario :
    (applyDoctorFixes [docTodoOrphan, docTodoDupKept, docTodoDupGone, docTodoBlank]
        docFileSystem "t1").1.length = 2 ∧
    (applyDoctorFixes [docTodoOrphan, docTodoDupKept, docTodoDupGone, docTodoBlank]
        docFileSystem "t1").1.map Todo.ID = ["1", "2"] ∧
    (applyDoctorFixes [docTodoOrphan, docTodoDupKept, docTodoDupGone, docTodoBlank]
        docFileSystem "t1").1.map (fun t => t.Context.Paths) = [[], ["keep.txt"]] ∧
    (applyDoctorFixes [docTodoOrphan, docTodoDupKept, docTodoDupGone, docTodoBlank]
        docFileSystem "t1").2 =
      { removedOrphanedPaths := 1, removedEmpty := 1, removedDuplicates := 1 } := by
  decide

/-! ## Claim C3: delete-confirmation transitions -/

/-- C3: in the delete-confirmation state with the cursor on a valid
todo, pressing `y` or `Y` deletes the todo at the cursor and persists
the resulting collection; the cursor is decremented exactly when it now
points past the end and is above zero; the session exits entirely when
the collection becomes empty and otherwise returns to browsing; and
pressing `n`, `N`, Esc or `q` cancels, returning to browsing with the
todo data unchanged and nothing persisted. -/
theorem deleteConfirm_transitions (st : IState) (now : Time) (key : String)
    (hconfirm : st.showDeleteConfirm = true) (hhelp : st.inHelp = false)
    (h0 : 0 ≤ st.selectedIndex) (hlen : st.selectedIndex < st.todos.length) :
    ((key = "y" ∨ key = "Y") →
      (interactiveStep st key now).2 =
        some (DeleteTodo st.todos st.selectedIndex) ∧
      (DeleteTodo st.todos st.selectedIndex = [] →
        (interactiveStep st key now).1 = none) ∧
      (DeleteTodo st.todos st.selectedIndex ≠ [] →
        (interactiveStep st key now).1 = some
          ⟨DeleteTodo st.todos st.selectedIndex,
           (if ((DeleteTodo st.todos st.selectedIndex).length : Int) ≤
                st.selectedIndex ∧ 0 < st.selectedIndex then
              st.selectedIndex - 1
            else st.selectedIndex),
           false, false⟩)) ∧
    (key = "n" ∨ key = "N" ∨ key = "ESC" ∨ key = "q" →
      interactiveStep st key now =
        (some { st with showDeleteConfirm := false }, none)) := by
  constructor
  · intro hk
    have hky : (key = "y" ∨ key = "Y") = True := by simp [hk]
    unfold interactiveStep
    rw [hhelp, hconfirm]
    simp only [Bool.false_eq_true, if_false, if_true, hky,
      if_pos (⟨h0, hlen⟩ : 0 ≤ st.selectedIndex ∧
        st.selectedIndex < (st.todos.length : Int))]
    refine ⟨?_, ?_, ?_⟩
    · by_cases hdel : (DeleteTodo st.todos st.selectedIndex).length = 0 <;>
        simp [hdel]
    · intro hnil
      rw [if_pos (by simp [hnil])]
    · intro hne
      rw [if_neg (by simpa using hne)]
  · intro hk
    have hneq : ¬(key = "y" ∨ key = "Y") := by
      rcases hk with h | h | h | h <;> subst h <;> decide
    unfold interactiveStep
    rw [hhelp, hconfirm]
    simp only [Bool.false_eq_true, if_false, if_true]
    rw [if_neg hneq, if_pos hk]

/-- Witness for C3 at a concrete state: confirming deletes the second
of two todos and returns to browsing; cancelling with `n` keeps the
collection intact. -/
theorem deleteConfirm_transitions_witness :
    (interactiveStep ⟨[cexTodoLong, cexTodoExact], 1, true, false⟩ "y" "t1").2 =
      some [cexTodoLong] ∧
    (interactiveStep ⟨[cexTodoLong, cexTodoExact], 1, true, false⟩ "n" "t1") =
      (some ⟨[cexTodoLong, cexTodoExact], 1, false, false⟩, none) := by
  constructor
  · have h := (deleteConfirm_transitions
      ⟨[cexTodoLong, cexTodoExact], 1, true, false⟩ "t1" "y"
      rfl rfl (by decide) (by decide)).1 (Or.inl rfl)
    exact h.1.trans (by decide)
  · exact (deleteConfirm_transitions
      ⟨[cexTodoLong, cexTodoExact], 1, true, false⟩ "t1" "n"
      rfl rfl (by decide) (by decide)).2 (Or.inl rfl)

/-! ## Claim C4: cursor invariant of the interactive session -/

/-- The cursor invariant: the selection index lies within
`[0, len(todos) - 1]` (which forces the collection non-empty). -/
def cursorInv (st : IState) : Prop :=
  0 ≤ st.selectedIndex ∧ st.selectedIndex < st.todos.length

/-- C4: a new session starts with the cursor at 0 (and on a non-empty
list that already satisfies the cursor invariant), and every keypress
transition that keeps the session alive — navigation, jump to first or
last, toggle, delete and its confirmation, help — preserves the
invariant: the cursor stays within `[0, len(todos) - 1]`. -/
theorem interactive_cursor_invariant :
    (∀ todos : List Todo, (initState todos).selectedIndex = 0) ∧
    (∀ todos : List Todo, todos ≠ [] → cursorInv (initState todos)) ∧
    (∀ (st : IState) (key : String) (now : Time) (next : IState)
        (saved : Option (List Todo)),
      cursorInv st → interactiveStep st key now = (some next, saved) →
      cursorInv next) := by
  refine ⟨fun todos => rfl, ?_, ?_⟩
  · intro todos hne
    have : 0 < todos.length := List.length_pos.mpr hne
    exact ⟨le_refl 0, by simp [initState]; omega⟩
  · intro st key now next saved hinv hstep
    obtain ⟨hinv0, hinv1⟩ := hinv
    have hlenpos : 0 < st.todos.length := by
      omega
    unfold interactiveStep at hstep
    by_cases hh : st.inHelp
    · rw [if_pos hh] at hstep
      simp only [Prod.mk.injEq, Option.some.injEq] at hstep
      obtain ⟨h1, -⟩ := hstep
      subst h1
      exact ⟨hinv0, hinv1⟩
    · rw [if_neg hh] at hstep
      by_cases hc : st.showDeleteConfirm
      · rw [if_pos hc] at hstep
        by_cases hy : key = "y" ∨ key = "Y"
        · rw [if_pos hy] at hstep
          rw [if_pos ⟨hinv0, hinv1⟩] at hstep
          have hdellen : (DeleteTodo st.todos st.selectedIndex).length =
              st.todos.length - 1 :=
            deleteTodo_length st.todos st.selectedIndex hinv0 hinv1
          by_cases hz : (DeleteTodo st.todos st.selectedIndex).length = 0
          · rw [if_pos hz] at hstep
            simp at hstep
          · rw [if_neg hz] at hstep
            simp only [Prod.mk.injEq, Option.some.injEq] at hstep
            obtain ⟨h1, -⟩ := hstep
            subst h1
            constructor <;> simp only <;> split <;> omega
        · rw [if_neg hy] at hstep
          by_cases hn : key = "n" ∨ key = "N" ∨ key = "ESC" ∨ key = "q"
          · rw [if_pos hn] at hstep
            simp only [Prod.mk.injEq, Option.some.injEq] at hstep
            obtain ⟨h1, -⟩ := hstep
            subst h1
            exact ⟨hinv0, hinv1⟩
          · rw [if_neg hn] at hstep
            simp only [Prod.mk.injEq, Option.some.injEq] at hstep
            obtain ⟨h1, -⟩ := hstep
            subst h1
            exact ⟨hinv0, hinv1⟩
      · rw [if_neg hc] at hstep
        by_cases hq : key = "q" ∨ key = "Q" ∨ key = "ESC"
        · rw [if_pos hq] at hstep
          simp at hstep
        · rw [if_neg hq] at hstep
          by_cases hdown : key = "DOWN" ∨ key = "j"
          · rw [if_pos hdown] at hstep
            simp only [Prod.mk.injEq, Option.some.injEq] at hstep
            obtain ⟨h1, -⟩ := hstep
            subst h1
            constructor <;> simp only <;> split <;> omega
          · rw [if_neg hdown] at hstep
            by_cases hup : key = "UP" ∨ key = "k"
            · rw [if_pos hup] at hstep
              simp only [Prod.mk.injEq, Option.some.injEq] at hstep
              obtain ⟨h1, -⟩ := hstep
              subst h1
              constructor <;> simp only <;> split <;> omega
            · rw [if_neg hup] at hstep
              by_cases hsp : key = "SPACE" ∨ key = "ENTER"
              · rw [if_pos hsp] at hstep
                rw [if_pos ⟨hinv0, hinv1⟩] at hstep
                simp only [Prod.mk.injEq, Option.some.injEq] at hstep
                obtain ⟨h1, -⟩ := hstep
                subst h1
                refine ⟨hinv0, ?_⟩
                simp only [modifyAt_length]
                exact hinv1
              · rw [if_neg hsp] at hstep
                by_cases hd : key = "d" ∨ key = "D" ∨ key = "x" ∨ key = "X"
                · rw [if_pos hd] at hstep
                  rw [if_pos ⟨hinv0, hinv1⟩] at hstep
                  simp only [Prod.mk.injEq, Option.some.injEq] at hstep
                  obtain ⟨h1, -⟩ := hstep
                  subst h1
                  exact ⟨hinv0, hinv1⟩
                · rw [if_neg hd] at hstep
                  by_cases hg : key = "g"
                  · rw [if_pos hg] at hstep
                    simp only [Prod.mk.injEq, Option.some.injEq] at hstep
                    obtain ⟨h1, -⟩ := hstep
                    subst h1
                    exact ⟨le_refl 0, by simpa using hlenpos⟩
                  · rw [if_neg hg] at hstep
                    by_cases hG : key = "G"
                    · rw [if_pos hG] at hstep
                      simp only [Prod.mk.injEq, Option.some.injEq] at hstep
                      obtain ⟨h1, -⟩ := hstep
                      subst h1
                      constructor <;> simp only <;> omega
                    · rw [if_neg hG] at hstep
                      by_cases hhelp : key = "?" ∨ key = "h" ∨ key = "H"
                      · rw [if_pos hhelp] at hstep
                        simp only [Prod.mk.injEq, Option.some.injEq] at hstep
                        obtain ⟨h1, -⟩ := hstep
                        subst h1
                        exact ⟨hinv0, hinv1⟩
                      · rw [if_neg hhelp] at hstep
                        simp only [Prod.mk.injEq, Option.some.injEq] at hstep
                        obtain ⟨h1, -⟩ := hstep
                        subst h1
                        exact ⟨hinv0, hinv1⟩

/-- Witness for C4 at a concrete session: a fresh two-todo session
satisfies the invariant, and it is preserved through a `G` jump to the
last element. -/
theorem interactive_cursor_invariant_witness :
    cursorInv (initState [cexTodoLong, cexTodoExact]) ∧
    cursorInv ⟨[cexTodoLong, cexTodoExact], 1, false, false⟩ := by
  constructor
  · exact interactive_cursor_invariant.2.1 [cexTodoLong, cexTodoExact]
      (by decide)
  · exact interactive_cursor_invariant.2.2
      (initState [cexTodoLong, cexTodoExact]) "G" "t1"
      ⟨[cexTodoLong, cexTodoExact], 1, false, false⟩ none
      (interactive_cursor_invariant.2.1 [cexTodoLong, cexTodoExact] (by decide))
      (by decide)

/-! ## Claim C9: non-empty-text validation on add and edit

`runAdd` checks `strings.TrimSpace (text) == ""` on the space-joined
positional arguments, but when a path flag is present and more than one
positional argument was given it then reassigns
`text = strings.TrimSpace (args[0])` without re-checking, so a first
argument of pure whitespace slips past the guard and a todo whose text
trims to empty is persisted. -/

/-- Failing invocation `todo add " " extra --path src`: the first
positional argument is all whitespace, a second positional argument is
present, and the path flag was used. -/
def addBugArgs : AddArgs :=
  { args := [" ", "extra"], pathFlagUsed := true, addPaths := ["src"]
    addPriority := "medium", addNoGit := false }

/-- Environment of the failing invocation: default config, empty
collection, no git repository. -/
def addBugEnv : AddEnv :=
  { config := DefaultConfig, todos := [], id := "deadbeef", isRepo := false
    gitBranch := "", gitCommit := "", gitOk := false, now := "t0" }

/-- C9 (code behavior at the failing input): the joined text passes the
emptiness guard, yet `runAdd` succeeds and the persisted collection's
single todo has text that trims to empty — the add path violates the
non-empty-text invariant the validation is meant to enforce. -/
theorem runAdd_persists_empty_text :
    trimSpace (joinSpace addBugArgs.args) ≠ "" ∧
    (runAdd addBugArgs addBugEnv).toOption.map
      (List.map fun t => trimSpace t.Text) = some [""] := by
  decide

/-! ## Claim C10: case-insensitive status and priority on edit -/

/-- C10: `runEdit` lowercases the supplied `--status` and `--priority`
values before validating them, so any casing of a member of the status
enumeration (resp. priority enumeration) succeeds and stores the
lowercase value along with a refreshed timestamp, while a value whose
lowercase form is outside the enumeration is rejected with the
invalid-status (resp. invalid-priority) error carrying the original
spelling, and no collection is returned for saving. -/
theorem runEdit_case_insensitive (todos : List Todo) (tok : String)
    (t : Todo) (idx : Nat) (now : Time) (s p : String)
    (hfind : FindTodoByIDOrIndex todos tok = some (t, idx)) :
    ((Status.IsValid (goToLower s) = true →
      runEdit ⟨tok, false, "", false, [], false, false, "", true, s⟩ todos now =
        .ok (modifyAt (fun t =>
          { t with Status := goToLower s, UpdatedAt := now }) todos idx)) ∧
     (Status.IsValid (goToLower s) = false →
      runEdit ⟨tok, false, "", false, [], false, false, "", true, s⟩ todos now =
        .error (.invalidStatus s))) ∧
    ((Priority.IsValid (goToLower p) = true →
      runEdit ⟨tok, false, "", false, [], false, true, p, false, ""⟩ todos now =
        .ok (modifyAt (fun t =>
          { t with Priority := goToLower p, UpdatedAt := now }) todos idx)) ∧
     (Priority.IsValid (goToLower p) = false →
      runEdit ⟨tok, false, "", false, [], false, true, p, false, ""⟩ todos now =
        .error (.invalidPriority p))) := by
  refine ⟨⟨?_, ?_⟩, ⟨?_, ?_⟩⟩
  · intro hvalid
    unfold runEdit
    rw [hfind]
    simp only [Bool.false_eq_true, if_false, if_true, hvalid, not_true,
      not_false_eq_true, ite_false, ite_true]
    rw [modifyAt_modifyAt]
  · intro hvalid
    unfold runEdit
    rw [hfind]
    simp only [Bool.false_eq_true, if_false, if_true, hvalid, not_false_eq_true,
      ite_false, ite_true]
  · intro hvalid
    unfold runEdit
    rw [hfind]
    simp only [Bool.false_eq_true, if_false, if_true, hvalid, not_true,
      not_false_eq_true, ite_false, ite_true]
    rw [modifyAt_modifyAt]
  · intro hvalid
    unfold runEdit
    rw [hfind]
    simp only [Bool.false_eq_true, if_false, if_true, hvalid, not_false_eq_true,
      ite_false, ite_true]

/-- Concrete target todo for the C10 witness. -/
def editWitnessTodo : Todo := { zeroTodo with ID := "feed1234", Text := "x" }

/-- Witness for C10 at a concrete collection: `--status DONE` stores
`done` on the first todo, and `--status bogus` is rejected with the
invalid-status error. -/
theorem runEdit_case_insensitive_witness :
    runEdit ⟨"1", false, "", false, [], false, false, "", true, "DONE"⟩
        [editWitnessTodo] "t1" =
      .ok [{ editWitnessTodo with Status := "done", UpdatedAt := "t1" }] ∧
    runEdit ⟨"1", false, "", false, [], false, false, "", true, "bogus"⟩
        [editWitnessTodo] "t1" = .error (.invalidStatus "bogus") := by
  constructor
  · have h := (runEdit_case_insensitive [editWitnessTodo] "1" editWitnessTodo 0
      "t1" "DONE" "low" (by decide)).1.1 (by decide)
    exact h.trans rfl
  · exact (runEdit_case_insensitive [editWitnessTodo] "1" editWitnessTodo 0
      "t1" "bogus" "low" (by decide)).1.2 (by decide)
